import Mathlib

/-!
Verification of the google-sheets storefront bot's core logic.

The Python sources are shallowly embedded: pure helpers become Lean
functions, `async` services become explicit state-passing functions,
exceptions become `Except`/scripted outcome values, and the Telegram /
Google-Sheets transports become oracles supplied as arguments.  Machine
integers do not overflow here (Python ints are unbounded), so chat ids
and dates are `Int` and counters are `Nat`.
-/

namespace SheetsBot

/-- A delivered Telegram message (only the id is observable to the code). -/
structure Msg where
  message_id : Nat
  deriving Repr, DecidableEq

/-- A transport-level exception other than `TelegramForbiddenError`.
`retryable` is true exactly for `TelegramRetryAfter` / `TelegramServerError`
/ `TelegramNetworkError` (see `_is_retryable_error`). -/
structure TError where
  retryable : Bool
  code : Nat
  deriving Repr, DecidableEq

/-- Outcome of one raw transport call (`bot.send_message` / `bot.send_photo` /
`message.answer` / `message.answer_photo`). -/
inductive TransportOutcome where
  | ok (m : Msg)
  | forbidden
  | err (e : TError)
  deriving Repr, DecidableEq

/-- Outcome of one awaited `update_status_by_chat_id` call inside the flush:
the call returned normally, timed out (`asyncio.wait_for` 5s), or raised. -/
inductive UpdateOutcome where
  | success
  | timeout
  | failure
  deriving Repr, DecidableEq

/-- Python `str.strip()` on a character list: drop leading and trailing
whitespace.  (Python also strips a few exotic Unicode space characters;
the worksheet and chat data in play is ordinary text.) -/
def trimChars (l : List Char) : List Char :=
  ((l.dropWhile Char.isWhitespace).reverse.dropWhile Char.isWhitespace).reverse

/-- Python `str.strip()`. -/
def strip (s : String) : String :=
  String.mk (trimChars s.toList)

/-- Python `str.lower()` (the status values in play are ASCII). -/
def lower (s : String) : String :=
  String.mk (s.toList.map Char.toLower)

/-- The numeric value of a digit string. -/
def digitsToNat (l : List Char) : Nat :=
  l.foldl (fun n c => n * 10 + (c.toNat - 48)) 0

/-- Python `int(s)` for string input: surrounding whitespace is ignored,
an optional single sign precedes the digits, and anything else raises
(`none`).  (Python additionally accepts underscore digit separators and
non-ASCII decimal digits; the worksheet cells in play are plain decimal.) -/
def py_int? (s : String) : Option Int :=
  match trimChars s.toList with
  | [] => none
  | '-' :: rest =>
      if rest ≠ [] ∧ rest.all Char.isDigit then some (-(digitsToNat rest : Int)) else none
  | '+' :: rest =>
      if rest ≠ [] ∧ rest.all Char.isDigit then some (digitsToNat rest : Int) else none
  | l =>
      if l.all Char.isDigit then some (digitsToNat l : Int) else none

/-- The digit sequence of a raw phone input: Python's
`re.sub(r"\D", "", raw)`, embedded as filtering decimal digits. -/
def phone_digits (raw : String) : List Char :=
  raw.toList.filter (fun c => c.isDigit)

/-- `src/utils/phone.py`, `normalize_ua_phone`: keep the digits of the raw
input, then match the three accepted Ukrainian shapes; `str.startswith`
is embedded as a character-list prefix test. -/
def normalize_ua_phone (raw : String) : Option String :=
  if raw == "" then
    none
  else if ([ '3', '8', '0' ].isPrefixOf (phone_digits raw)) && (phone_digits raw).length = 12 then
    some (String.mk ([ '+' ] ++ phone_digits raw))
  else if ([ '8', '0' ].isPrefixOf (phone_digits raw)) && (phone_digits raw).length = 11 then
    some (String.mk ([ '+', '3' ] ++ phone_digits raw))
  else if ([ '0' ].isPrefixOf (phone_digits raw)) && (phone_digits raw).length = 10 then
    some (String.mk ([ '+', '3', '8' ] ++ phone_digits raw))
  else
    none

/-- `PromoSettings` dataclass (`src/services/promo_settings_service.py`).
`send_time` is minutes since local midnight; dates are counted in days
(Python `datetime.date` values ordered by the calendar, embedded as `Int`
day numbers so that `+ timedelta(days = n)` is `+ n`). -/
structure PromoSettings where
  enabled : Bool
  interval_days : Nat
  send_time : Nat
  last_sent_date : Option Int
  deriving Repr, DecidableEq

/-- A timezone-aware datetime already converted to Europe/Kyiv local time
(`now.astimezone(self._kyiv_tz)`): local calendar date plus minutes into
that local day. -/
structure LocalDateTime where
  day : Int
  minute : Nat
  deriving Repr, DecidableEq

/-- `PromoSettingsService.should_send_now`.  `now` is the Kyiv-local view of
the wall clock; `now.date()` is `now.day`.  The comparison
`now < datetime.combine(today, settings.send_time, kyiv)` is between two
datetimes of the same local day, i.e. a comparison of the times of day. -/
def should_send_now (settings : PromoSettings) (now : LocalDateTime) : Bool :=
  let today := now.day
  if !settings.enabled then
    false
  else if settings.last_sent_date = some today then
    false
  else if now.minute < settings.send_time then
    false
  else
    match settings.last_sent_date with
    | none => true
    | some last => decide (today ≥ last + (settings.interval_days : Int))

/-- `PromoSettingsService.update_last_sent_date` writes `value.isoformat()`
into the last-sent cell of the singleton settings row; at the record level
that replaces `last_sent_date` with the written date. -/
def update_last_sent_date (settings : PromoSettings) (value : Int) : PromoSettings :=
  { settings with last_sent_date := some value }

/-! ## User directory (`src/services/user_service.py`)

The worksheet is embedded as its list of data rows (lists of cell
strings); absolute sheet row numbers (header = row 1) cancel out, so rows
are addressed by their position in this list.  The in-process row/status
caches are write-through mirrors of the sheet and are elided: the embedded
operations act on the sheet contents directly. -/

/-- Raw data rows of the users worksheet. -/
abbrev Directory := List (List String)

/-- 1-based column numbers from `user_service.py`. -/
def STATUS_COLUMN : Nat := 6

/-- 1-based chat-id column number from `user_service.py`. -/
def CHAT_ID_COLUMN : Nat := 2

/-- Python `int(cell)` on a worksheet cell (it ignores surrounding
whitespace), returning `none` where Python raises `ValueError`. -/
def parse_chat_id (s : String) : Option Int :=
  py_int? s

/-- `UserService.get_chat_ids`: keep rows with at least a chat-id cell,
drop rows whose status cell (trimmed, lowercased) is `"left"`, parse the
chat-id cell, and skip unparsable cells. -/
def get_chat_ids (rows : Directory) : List Int :=
  rows.filterMap (fun row =>
    if row.length < 2 then
      none
    else if STATUS_COLUMN ≤ row.length &&
        lower (strip (row.getD (STATUS_COLUMN - 1) "")) == "left" then
      none
    else
      parse_chat_id (row.getD 1 ""))

/-- `SheetsClient.update_cell(row, col, value)` on one row: the worksheet
grows the row as needed, so pad with empty cells up to `col` and set the
1-based cell `col`. -/
def set_cell (row : List String) (col : Nat) (value : String) : List String :=
  (row ++ List.replicate (col - row.length) "").set (col - 1) value

/-- The chat-id row index (as built by `_ensure_row_index_cache`, which
strips the cell): the first row whose stripped chat-id cell equals
`str(chat_id)`. -/
def find_row_by_chat_id (rows : Directory) (chat_id : Int) : Option Nat :=
  rows.findIdx? (fun row => strip (row.getD (CHAT_ID_COLUMN - 1) "") == toString chat_id)

/-- `UserService.update_status_by_chat_id`: locate the row by chat id and
write `"active"` / `"left"` into its status cell; a chat id with no row is
a silent no-op.  (The cached-status short-circuit only skips a write that
would rewrite the value already present, so the resulting sheet is the
same.) -/
def update_status_by_chat_id (rows : Directory) (chat_id : Int) (is_active : Bool) : Directory :=
  match find_row_by_chat_id rows chat_id with
  | none => rows
  | some i =>
      rows.set i (set_cell (rows.getD i []) STATUS_COLUMN (if is_active then "active" else "left"))

/-! ## Safe sender (`src/services/safe_sender.py`)

`_forbidden_chat_ids` is a Python `set`; it is embedded as a
duplicate-free list (insertion order), which models set membership and
set cardinality exactly.  The transport is an oracle: each wrapper takes
the outcome of the one raw `aiogram` call it performs. -/

/-- The mutable state of a `SafeSender`: the pending-forbidden chat ids. -/
structure SafeSenderState where
  pending : List Int
  deriving Repr, DecidableEq

/-- `SafeSender._handle_forbidden`: `None` chat ids are ignored; otherwise
add the chat id to the pending set (a no-op when already present). -/
def handle_forbidden (st : SafeSenderState) (chat_id : Option Int) : SafeSenderState :=
  match chat_id with
  | none => st
  | some c => if c ∈ st.pending then st else ⟨st.pending ++ [c]⟩

/-- `SafeSender.send_message`: return the message on success, swallow
`TelegramForbiddenError` into the pending set and return `None`, re-raise
anything else. -/
def send_message (st : SafeSenderState) (chat_id : Int) (outcome : TransportOutcome) :
    Except TError (Option Msg × SafeSenderState) :=
  match outcome with
  | .ok m => .ok (some m, st)
  | .forbidden => .ok (none, handle_forbidden st (some chat_id))
  | .err e => .error e

/-- `SafeSender.send_photo`: same contract as `send_message` (the payload
does not influence the control flow). -/
def send_photo (st : SafeSenderState) (chat_id : Int) (outcome : TransportOutcome) :
    Except TError (Option Msg × SafeSenderState) :=
  match outcome with
  | .ok m => .ok (some m, st)
  | .forbidden => .ok (none, handle_forbidden st (some chat_id))
  | .err e => .error e

/-- An inbound message, as far as `SafeSender.answer*` consults it. -/
structure InboundMsg where
  chat_id : Int
  deriving Repr, DecidableEq

/-- `SafeSender.answer`: reply via `message.answer`, recording
`message.chat.id` on `TelegramForbiddenError`. -/
def answer (st : SafeSenderState) (message : InboundMsg) (outcome : TransportOutcome) :
    Except TError (Option Msg × SafeSenderState) :=
  match outcome with
  | .ok m => .ok (some m, st)
  | .forbidden => .ok (none, handle_forbidden st (some message.chat_id))
  | .err e => .error e

/-- `SafeSender.answer_photo`: same contract as `answer`. -/
def answer_photo (st : SafeSenderState) (message : InboundMsg) (outcome : TransportOutcome) :
    Except TError (Option Msg × SafeSenderState) :=
  match outcome with
  | .ok m => .ok (some m, st)
  | .forbidden => .ok (none, handle_forbidden st (some message.chat_id))
  | .err e => .error e

/-- Result of `SafeSender.flush_pending_forbidden_statuses`: the returned
`updated` count, the chats an update call was awaited for (`to_process`),
the new pending set, and the worksheet after the applied updates. -/
structure FlushOutput where
  updated : Nat
  processed : List Int
  state : SafeSenderState
  dir : Directory
  deriving Repr, DecidableEq

/-- One iteration of the flush loop: a successful await applies the
directory update and counts it; a timeout or failure re-queues the chat id
onto the leftovers. -/
def flush_step (upd : Int → UpdateOutcome) (acc : Nat × List Int × Directory) (chat_id : Int) :
    Nat × List Int × Directory :=
  match upd chat_id with
  | .success => (acc.1 + 1, acc.2.1, update_status_by_chat_id acc.2.2 chat_id false)
  | .timeout => (acc.1, acc.2.1 ++ [chat_id], acc.2.2)
  | .failure => (acc.1, acc.2.1 ++ [chat_id], acc.2.2)

/-- `SafeSender.flush_pending_forbidden_statuses`: snapshot and clear the
pending set, process at most `max(1, max_updates)` entries (each update
awaited with its own timeout; failures and timeouts are appended to the
leftovers), then put the leftovers back into the pending set.  `upd` is
the oracle saying how each awaited update call ends. -/
def flush_pending_forbidden_statuses (st : SafeSenderState) (dir : Directory)
    (max_updates : Nat) (upd : Int → UpdateOutcome) : FlushOutput :=
  let pending := st.pending
  if pending.isEmpty then
    ⟨0, [], ⟨[]⟩, dir⟩
  else
    let m := max 1 max_updates
    let to_process := pending.take m
    let leftovers := pending.drop m
    let r := to_process.foldl (flush_step upd) (0, leftovers, dir)
    ⟨r.1, to_process, ⟨r.2.1⟩, r.2.2⟩

/-! ## Promo scheduler (`src/services/promo_scheduler.py`)

`asyncio.gather` over a batch and the pacing sleeps are linearized: the
per-chat deliveries share only the safe-sender pending set, whose updates
are insertions, so folding the batch in list order is a faithful
linearization.  The transport is scripted per chat / attempt / product
position. -/

/-- A catalogue product as far as the broadcast consults it. -/
structure Product where
  id : Nat
  name : String
  photo_url : String
  price : String
  deriving Repr, DecidableEq

/-- `PromoBroadcastResult` dataclass. -/
structure PromoBroadcastResult where
  status : String
  chats : Nat
  products : Nat
  success : Nat := 0
  forbidden : Nat := 0
  temporary_errors : Nat := 0
  permanent_errors : Nat := 0
  deriving Repr, DecidableEq

/-- Coarse observable effects of a broadcast invocation, used to state
that the busy path performs none of them. -/
inductive Effect where
  | loadProducts
  | loadChats
  | sendToChat (chat_id : Int)
  | flushUpdates
  deriving Repr, DecidableEq

/-- A transport script: for a chat id, the attempt number and the 0-based
position of the product being sent, the outcome of that `send_photo`. -/
abbrev SendScript := Int → Nat → Nat → TransportOutcome

/-- Structural worker for `_iter_chunks`; the fuel starts at the list
length, which bounds the number of chunks whenever the chunk size is
positive. -/
def iter_chunks_go (chunk_size : Nat) : Nat → List Int → List (List Int)
  | 0, _ => []
  | _ + 1, [] => []
  | fuel + 1, a :: l =>
      (a :: l).take chunk_size :: iter_chunks_go chunk_size fuel ((a :: l).drop chunk_size)

/-- `_iter_chunks`: split the chat list into consecutive chunks of
`chunk_size` (the Python generator over `range(0, len, chunk_size)`;
`chunk_size = 0` never occurs, the caller passes 20). -/
def _iter_chunks (items : List Int) (chunk_size : Nat) : List (List Int) :=
  if chunk_size == 0 then
    []
  else
    iter_chunks_go chunk_size items.length items

/-- `_send_products_to_chat` (minus the in-memory product-card bookkeeping,
which the claims do not touch): send every product via the safe sender's
`send_photo`; a `None` result (forbidden) stops the loop with `False`, a
raised transport error propagates.  `idx` is the position of the next
product in the full list, so the script addresses each send. -/
def _send_products_to_chat (script : Nat → TransportOutcome) (st : SafeSenderState)
    (chat_id : Int) (products : List Product) (idx : Nat) :
    Except TError (Bool × SafeSenderState) :=
  match products with
  | [] => .ok (true, st)
  | _ :: rest =>
      match send_photo st chat_id (script idx) with
      | .error e => .error e
      | .ok (none, st1) => .ok (false, st1)
      | .ok (some _, st1) => _send_products_to_chat script st1 chat_id rest (idx + 1)

/-- The `for attempt in range(1, max_attempts + 1)` loop of
`_send_products_with_retry`, structured on the number of remaining
attempts: a raised error is retried while it is retryable and attempts
remain, otherwise classified as temporary / permanent. -/
def retry_loop (script : SendScript) (chat_id : Int) (products : List Product)
    (max_attempts : Nat) : Nat → SafeSenderState → String × SafeSenderState
  | 0, st => ("temporary_error", st)
  | remaining + 1, st =>
      let attempt := max_attempts - remaining
      match _send_products_to_chat (script chat_id attempt) st chat_id products 0 with
      | .ok (true, st1) => ("success", st1)
      | .ok (false, st1) => ("forbidden", st1)
      | .error e =>
          if e.retryable && remaining != 0 then
            retry_loop script chat_id products max_attempts remaining st
          else
            ((if e.retryable then "temporary_error" else "permanent_error"), st)

/-- `_send_products_with_retry` with its default of three attempts. -/
def _send_products_with_retry (script : SendScript) (st : SafeSenderState)
    (chat_id : Int) (products : List Product) (max_attempts : Nat := 3) :
    String × SafeSenderState :=
  retry_loop script chat_id products max_attempts max_attempts st

/-- Per-chat outcome counters accumulated over the batches. -/
structure BCounts where
  success : Nat := 0
  forbidden : Nat := 0
  temporary_errors : Nat := 0
  permanent_errors : Nat := 0
  deriving Repr, DecidableEq

/-- Add one per-chat result tag to the counters (the
`sum(1 for result in results if result == ...)` aggregation). -/
def BCounts.add (c : BCounts) (tag : String) : BCounts :=
  if tag == "success" then { c with success := c.success + 1 }
  else if tag == "forbidden" then { c with forbidden := c.forbidden + 1 }
  else if tag == "temporary_error" then { c with temporary_errors := c.temporary_errors + 1 }
  else if tag == "permanent_error" then { c with permanent_errors := c.permanent_errors + 1 }
  else c

/-- Deliver to one chat of a batch and fold its tag into the counters. -/
def broadcast_chat_step (script : SendScript) (products : List Product)
    (acc : BCounts × SafeSenderState) (chat_id : Int) : BCounts × SafeSenderState :=
  let r := _send_products_with_retry script acc.2 chat_id products
  (acc.1.add r.1, r.2)

/-- Everything `_broadcast_promo_impl` reads from the outside world:
whether the two loads succeed, the transport script and how the flush's
directory updates end. -/
structure BroadcastEnv where
  productsResult : Except TError (List Product)
  chatFetchFails : Bool
  script : SendScript
  updateOutcome : Int → UpdateOutcome

/-- `_broadcast_promo_impl`: load products and reachable chats (each
failure its own error status), deliver batch by batch, flush the pending
forbidden set (cap 30) and classify the run.  Returns the result, the
safe-sender state, the users worksheet, and the coarse effect trace. -/
def _broadcast_promo_impl (env : BroadcastEnv) (st : SafeSenderState) (dir : Directory) :
    PromoBroadcastResult × SafeSenderState × Directory × List Effect :=
  match env.productsResult with
  | .error _ =>
      (⟨"error", 0, 0, 0, 0, 0, 0⟩, st, dir, [.loadProducts])
  | .ok products =>
      if products.isEmpty then
        (⟨"no_products", 0, 0, 0, 0, 0, 0⟩, st, dir, [.loadProducts])
      else if env.chatFetchFails then
        (⟨"error", 0, products.length, 0, 0, 0, 0⟩, st, dir, [.loadProducts, .loadChats])
      else
        let chat_ids := get_chat_ids dir
        if chat_ids.isEmpty then
          (⟨"no_chats", 0, products.length, 0, 0, 0, 0⟩, st, dir, [.loadProducts, .loadChats])
        else
          let folded := (_iter_chunks chat_ids 20).foldl
            (fun acc batch => batch.foldl (broadcast_chat_step env.script products) acc)
            (({} : BCounts), st)
          let counts := folded.1
          let fr := flush_pending_forbidden_statuses folded.2 dir 30 env.updateOutcome
          let status :=
            if counts.temporary_errors + counts.permanent_errors ≠ 0 then
              "sent_with_failures"
            else
              "sent"
          (⟨status, chat_ids.length, products.length, counts.success, counts.forbidden,
              counts.temporary_errors, counts.permanent_errors⟩,
            fr.state, fr.dir,
            [.loadProducts, .loadChats] ++ chat_ids.map Effect.sendToChat ++ [.flushUpdates])

/-- `broadcast_promo`: the non-blocking mutual-exclusion gate.  A holder of
`_broadcast_lock` makes the 10ms `wait_for` acquisition time out, and the
invocation returns the busy result at once, performing nothing. -/
def broadcast_promo (lockHeld : Bool) (env : BroadcastEnv) (st : SafeSenderState)
    (dir : Directory) : PromoBroadcastResult × SafeSenderState × Directory × List Effect :=
  if lockHeld then
    (⟨"busy", 0, 0, 0, 0, 0, 0⟩, st, dir, [])
  else
    _broadcast_promo_impl env st dir

/-- `promo_tick`: read the settings (a read failure ends the tick), consult
the gate, broadcast, and — only for a status in the successful family —
attempt to advance `last_sent_date` to the tick's local date.  The write
sits in its own `try/except`: when the sheets write raises (`writeFails`,
the oracle for that call), the failure is logged and swallowed and the
stored record stays as it was.  Returns the broadcast result (`none` when
no broadcast ran) and the stored settings record after the tick. -/
def promo_tick (settings : PromoSettings) (fetchFails : Bool) (now : LocalDateTime)
    (lockHeld : Bool) (env : BroadcastEnv) (st : SafeSenderState) (dir : Directory)
    (writeFails : Bool) : Option PromoBroadcastResult × PromoSettings :=
  if fetchFails then
    (none, settings)
  else if !(should_send_now settings now) then
    (none, settings)
  else if (broadcast_promo lockHeld env st dir).1.status == "sent" ||
      (broadcast_promo lockHeld env st dir).1.status == "sent_with_failures" then
    if writeFails then
      (some (broadcast_promo lockHeld env st dir).1, settings)
    else
      (some (broadcast_promo lockHeld env st dir).1, update_last_sent_date settings now.day)
  else
    (some (broadcast_promo lockHeld env st dir).1, settings)

/-! ## Order submission (`src/handlers/order.py`)

The two confirmation handlers are embedded as effect traces: each
externally visible side effect the handler performs is appended in program
order, and an uncaught exception truncates the trace at the raising call.
The CRM gateway is an oracle (`crmFails`). -/

/-- The conversation data consulted at submission time
(`state.get_data()`). -/
structure OrderData where
  product_id : Nat
  product_name : String
  product_price : String
  formatted_price : String
  name : String
  phone : String
  city_branch : String
  deriving Repr, DecidableEq

/-- A stored customer record as `confirm_existing_order` reads it
(`customer.get(...) or ""` collapses missing fields to `""`). -/
structure Customer where
  name : String
  phone : String
  city : String
  post_office : String
  deriving Repr, DecidableEq

/-- `city_branch_handler` stores `message.text.strip()` as the combined
city/branch string. -/
def city_branch_store (text : String) : String :=
  strip text

/-- The splitting logic at the top of `submit_order`:
`raw = data["city_branch"].strip()`; with a comma,
`city, post = map(str.strip, raw.split(",", 1))`, otherwise the whole
string is the city and the branch is empty.  `split(",", 1)` is embedded
on the character list: the prefix before the first comma and the
remainder after it. -/
def split_city_branch (stored : String) : String × String :=
  let raw := strip stored
  if raw.toList.contains ',' then
    (strip (String.mk (raw.toList.takeWhile (fun c => c ≠ ','))),
      strip (String.mk ((raw.toList.dropWhile (fun c => c ≠ ',')).drop 1)))
  else
    (raw, "")

/-- `", ".join(delivery_parts)` where empty city / branch parts are left
out. -/
def delivery_text (city post_office : String) : String :=
  String.intercalate ", " ([city, post_office].filter (fun s => s != ""))

/-- The confirmation summary rendered by `city_branch_handler`; its
delivery line carries the stored combined string verbatim. -/
def confirmation_summary (d : OrderData) : String :=
  "<b>📝 Перевірте дані замовлення:</b>\n\n" ++
    "📦 Товар: <b>" ++ d.product_name ++ "</b>\n" ++
    "💰 Ціна: " ++ d.formatted_price ++ "\n" ++
    "👤 Імʼя: " ++ d.name ++ "\n" ++
    "📱 Телефон: " ++ d.phone ++ "\n" ++
    "📦 Доставка: " ++ d.city_branch

/-- The `order_id` synthesized for the CRM call. -/
def crm_order_id (product_id : Nat) (user_id : Int) : String :=
  toString product_id ++ "-" ++ toString user_id

/-- The CRM comment sent with the order. -/
def crm_comment (dt : String) : String :=
  "Delivery: " ++ dt

/-- `LPCRMClient.send_order` as an oracle: the gateway either accepts the
order or raises. -/
def crm_send_order (crmFails : Bool) : Except TError Unit :=
  if crmFails then .error ⟨false, 0⟩ else .ok ()

/-- Externally visible side effects of the confirmation handlers, in
program order. -/
inductive OrderEffect where
  | saveCustomer (city post_office : String)
  | crmSendOrder (order_id comment : String)
  | notifyOrdersGroup (delivery : String)
  | removeKeyboard
  | ackBuyer
  | afterOrderPromo
  | clearState
  | answerCallback
  | answerAlert
  deriving Repr, DecidableEq

/-- `submit_order` (`order:submit`): split the stored city/branch, upsert
the customer, send the order to the CRM inside `try/except` (a failure is
logged and execution falls through), then notify the operations chat,
drop the keyboard, acknowledge the buyer, fire the post-order promo,
clear the state and answer the callback. -/
def submit_order (d : OrderData) (user_id : Int) (crmFails : Bool) : List OrderEffect :=
  let cb := split_city_branch d.city_branch
  let dt := delivery_text cb.1 cb.2
  let oid := crm_order_id d.product_id user_id
  let pre := [OrderEffect.saveCustomer cb.1 cb.2, OrderEffect.crmSendOrder oid (crm_comment dt)]
  let tail := [OrderEffect.notifyOrdersGroup (if dt == "" then "-" else dt),
    OrderEffect.removeKeyboard, OrderEffect.ackBuyer, OrderEffect.afterOrderPromo,
    OrderEffect.clearState, OrderEffect.answerCallback]
  match crm_send_order crmFails with
  | .ok _ => pre ++ tail
  | .error _ => pre ++ tail

/-- `confirm_existing_order` (`order:confirm_existing`): reuse the saved
customer data.  The CRM call here is NOT wrapped in `try/except`, so a
gateway failure propagates out of the handler; the returned flag is
whether the handler ran to completion. -/
def confirm_existing_order (d : OrderData) (customer : Option Customer) (user_id : Int)
    (crmFails : Bool) : List OrderEffect × Bool :=
  match customer with
  | none => ([OrderEffect.answerAlert], true)
  | some c =>
      let dt := delivery_text (strip c.city) (strip c.post_office)
      let oid := crm_order_id d.product_id user_id
      let pre := [OrderEffect.crmSendOrder oid (crm_comment dt)]
      match crm_send_order crmFails with
      | .error _ => (pre, false)
      | .ok _ =>
          (pre ++ [OrderEffect.notifyOrdersGroup (if dt == "" then "-" else dt),
            OrderEffect.removeKeyboard, OrderEffect.ackBuyer,
            OrderEffect.clearState, OrderEffect.answerCallback], true)

/-! ## General helper lemmas -/

/-- A chat id handed to `_handle_forbidden` ends up in the pending set. -/
theorem mem_handle_forbidden (st : SafeSenderState) (c : Int) :
    c ∈ (handle_forbidden st (some c)).pending := by
  unfold handle_forbidden
  by_cases h : c ∈ st.pending
  · simp [h]
  · simp [h]

/-! ## C1: the promo gate -/

/-- C1: `should_send_now(settings, now)` is true iff the feature is
enabled, the last-sent date is not the current Kyiv-local date, the local
time of day has reached the configured send time, and the promo was
either never sent or the interval has elapsed (`today >=
last_sent_date + interval_days`).  All the particular cases of the claim
(same-day hard guard regardless of interval, false before the send time
on the first eligible day and true at/after it) are instances of this
equivalence. -/
theorem should_send_now_iff (s : PromoSettings) (now : LocalDateTime) :
    should_send_now s now = true ↔
      (s.enabled = true ∧ s.last_sent_date ≠ some now.day ∧ s.send_time ≤ now.minute ∧
        (s.last_sent_date = none ∨
          ∃ last, s.last_sent_date = some last ∧ last + (s.interval_days : Int) ≤ now.day)) := by
  rcases s with ⟨en, iv, stm, lsd⟩
  cases en <;> cases lsd <;>
    simp only [should_send_now, Bool.not_true, Bool.not_false, if_true, if_false,
      Option.some.injEq, ne_eq, reduceCtorEq, not_false_iff, true_and, false_and] <;>
    split_ifs <;>
    simp_all

/-! ## C3: the busy gate of `broadcast_promo` -/

/-- C3: an invocation of `broadcast_promo` that finds the
mutual-exclusion gate held returns the `"busy"` result (0 chats, 0
products) at once, leaves the safe-sender state and the users worksheet
untouched, and its effect trace is empty: no product load, no directory
read, no send, no flush. -/
theorem broadcast_promo_busy (env : BroadcastEnv) (st : SafeSenderState) (dir : Directory) :
    broadcast_promo true env st dir =
      (⟨"busy", 0, 0, 0, 0, 0, 0⟩, st, dir, []) := rfl

/-! ## C4: the safe-sender contract -/

/-- The common contract of the four safe-sender wrappers: the result is
`None` exactly on `TelegramForbiddenError`, in which case the chat id is
in the pending-forbidden set of the returned state; any other transport
error propagates unchanged; a delivered message is returned with the
state untouched. -/
def SendContract (st : SafeSenderState) (chat_id : Int)
    (send : TransportOutcome → Except TError (Option Msg × SafeSenderState)) : Prop :=
  ∀ o : TransportOutcome,
    ((∃ st1, send o = .ok (none, st1)) ↔ o = .forbidden) ∧
    (o = .forbidden →
      send o = .ok (none, handle_forbidden st (some chat_id)) ∧
        chat_id ∈ (handle_forbidden st (some chat_id)).pending) ∧
    (∀ e, o = .err e → send o = .error e) ∧
    (∀ m, o = .ok m → send o = .ok (some m, st))

theorem send_contract_of_shape (st : SafeSenderState) (chat_id : Int)
    (send : TransportOutcome → Except TError (Option Msg × SafeSenderState))
    (h : ∀ o, send o = match o with
      | .ok m => .ok (some m, st)
      | .forbidden => .ok (none, handle_forbidden st (some chat_id))
      | .err e => .error e) :
    SendContract st chat_id send := by
  intro o
  refine ⟨⟨fun hex => ?_, fun ho => ?_⟩, fun ho => ?_, fun e he => ?_, fun m hm => ?_⟩
  · obtain ⟨st1, h1⟩ := hex
    cases o <;> simp_all [h]
  · subst ho
    exact ⟨handle_forbidden st (some chat_id), by simp [h]⟩
  · subst ho
    exact ⟨by simp [h], mem_handle_forbidden st chat_id⟩
  · subst he
    simp [h]
  · subst hm
    simp [h]

/-- C4: each of `send_message`, `send_photo`, `answer` and `answer_photo`
returns `None` exactly when the transport raises
`TelegramForbiddenError`, in which case the destination chat id is
recorded in the pending-forbidden set instead of raising; every other
transport error propagates unchanged; a delivered message is returned
unwrapped with the state unchanged. -/
theorem safe_sender_contract (st : SafeSenderState) (chat_id : Int) (message : InboundMsg) :
    SendContract st chat_id (send_message st chat_id) ∧
    SendContract st chat_id (send_photo st chat_id) ∧
    SendContract st message.chat_id (answer st message) ∧
    SendContract st message.chat_id (answer_photo st message) :=
  ⟨send_contract_of_shape _ _ _ (fun o => by cases o <;> rfl),
    send_contract_of_shape _ _ _ (fun o => by cases o <;> rfl),
    send_contract_of_shape _ _ _ (fun o => by cases o <;> rfl),
    send_contract_of_shape _ _ _ (fun o => by cases o <;> rfl)⟩

/-- Witness for C4: a forbidden send to chat 5 returns `None` and queues 5. -/
theorem safe_sender_contract_witness :
    send_message ⟨[]⟩ 5 TransportOutcome.forbidden = .ok (none, ⟨[5]⟩) := by
  have h := ((safe_sender_contract ⟨[]⟩ 5 ⟨5⟩).1 TransportOutcome.forbidden).2.1 rfl
  simpa [handle_forbidden] using h.1

/-! ## C2: only the successful family advances `last_sent_date` -/

/-- C2 counterexample to the claim as stated: a tick whose broadcast is
fully successful (status `"sent"`) but whose `update_last_sent_date`
sheets write raises leaves the stored settings unchanged — the exception
is logged and swallowed (`try/except` around the write in `promo_tick`),
so "updated if and only if the broadcast returned a successful status"
fails in its "if" direction. -/
theorem promo_tick_write_failure_counterexample :
    (promo_tick ⟨true, 1, 0, none⟩ false ⟨20000, 600⟩ false
        ⟨.ok [⟨1, "p", "u", "9"⟩], false, fun _ _ _ => .ok ⟨1⟩, fun _ => .success⟩
        ⟨[]⟩ [["1", "7", "", "", "", "active"]] true).1 =
      some ⟨"sent", 1, 1, 1, 0, 0, 0⟩ ∧
    (promo_tick ⟨true, 1, 0, none⟩ false ⟨20000, 600⟩ false
        ⟨.ok [⟨1, "p", "u", "9"⟩], false, fun _ _ _ => .ok ⟨1⟩, fun _ => .success⟩
        ⟨[]⟩ [["1", "7", "", "", "", "active"]] true).2 = ⟨true, 1, 0, none⟩ ∧
    (promo_tick ⟨true, 1, 0, none⟩ false ⟨20000, 600⟩ false
        ⟨.ok [⟨1, "p", "u", "9"⟩], false, fun _ _ _ => .ok ⟨1⟩, fun _ => .success⟩
        ⟨[]⟩ [["1", "7", "", "", "", "active"]] true).2 ≠
      update_last_sent_date ⟨true, 1, 0, none⟩ 20000 := by
  decide

/-- C2 (amended): over a promo tick, the stored settings record is
advanced to the tick's Kyiv-local date exactly when a broadcast ran with
status `"sent"` or `"sent_with_failures"` AND the sheets write of the
date succeeded; a failing write is logged and swallowed, leaving the
stored record unchanged (so the next tick retries the whole send); any
other broadcast outcome, and any tick where no broadcast ran (settings
unreadable or gate false), leaves the stored settings untouched
regardless of the write oracle.  A tick runs a broadcast iff the
settings were read and the gate passed. -/
theorem promo_tick_last_sent (settings : PromoSettings) (fetchFails : Bool)
    (now : LocalDateTime) (lockHeld : Bool) (env : BroadcastEnv)
    (st : SafeSenderState) (dir : Directory) (writeFails : Bool) :
    (∀ r, (promo_tick settings fetchFails now lockHeld env st dir writeFails).1 = some r →
      (r.status = "sent" ∨ r.status = "sent_with_failures") → writeFails = false →
      (promo_tick settings fetchFails now lockHeld env st dir writeFails).2 =
        update_last_sent_date settings now.day) ∧
    (∀ r, (promo_tick settings fetchFails now lockHeld env st dir writeFails).1 = some r →
      (r.status = "sent" ∨ r.status = "sent_with_failures") → writeFails = true →
      (promo_tick settings fetchFails now lockHeld env st dir writeFails).2 = settings) ∧
    (∀ r, (promo_tick settings fetchFails now lockHeld env st dir writeFails).1 = some r →
      ¬(r.status = "sent" ∨ r.status = "sent_with_failures") →
      (promo_tick settings fetchFails now lockHeld env st dir writeFails).2 = settings) ∧
    ((promo_tick settings fetchFails now lockHeld env st dir writeFails).1 = none →
      (promo_tick settings fetchFails now lockHeld env st dir writeFails).2 = settings) ∧
    ((promo_tick settings fetchFails now lockHeld env st dir writeFails).1 = none ↔
      (fetchFails = true ∨ should_send_now settings now = false)) := by
  unfold promo_tick
  split_ifs with h1 h2 hs hw
  · simp [h1]
  · simp_all
  · simp only [Bool.or_eq_true, beq_iff_eq] at hs
    refine ⟨fun r hr _ hwf => absurd (hw.symm.trans hwf) (by simp),
      fun r hr _ _ => rfl, fun r hr hne => ?_, by simp, by simp_all⟩
    obtain rfl : (broadcast_promo lockHeld env st dir).1 = r := Option.some.inj hr
    exact absurd hs hne
  · simp only [Bool.or_eq_true, beq_iff_eq] at hs
    simp only [Bool.not_eq_true] at hw
    refine ⟨fun r hr _ _ => rfl,
      fun r hr _ hwt => absurd (hw.symm.trans hwt) (by simp),
      fun r hr hne => ?_, by simp, by simp_all⟩
    obtain rfl : (broadcast_promo lockHeld env st dir).1 = r := Option.some.inj hr
    exact absurd hs hne
  · simp only [Bool.or_eq_true, beq_iff_eq] at hs
    refine ⟨fun r hr heq _ => ?_, fun r hr heq _ => ?_, fun r hr _ => rfl,
      by simp, by simp_all⟩ <;>
      (obtain rfl : (broadcast_promo lockHeld env st dir).1 = r := Option.some.inj hr
       exact absurd heq hs)

/-- Witness for C2: a tick whose broadcast fully succeeds (status
`"sent"`) and whose sheets write goes through advances the stored
`last_sent_date` to the tick's local date. -/
theorem promo_tick_last_sent_witness :
    (promo_tick ⟨true, 1, 0, none⟩ false ⟨20000, 600⟩ false
        ⟨.ok [⟨1, "p", "u", "9"⟩], false, fun _ _ _ => .ok ⟨1⟩, fun _ => .success⟩
        ⟨[]⟩ [["1", "7", "", "", "", "active"]] false).2 =
      update_last_sent_date ⟨true, 1, 0, none⟩ 20000 :=
  (promo_tick_last_sent ⟨true, 1, 0, none⟩ false ⟨20000, 600⟩ false
      ⟨.ok [⟨1, "p", "u", "9"⟩], false, fun _ _ _ => .ok ⟨1⟩, fun _ => .success⟩
      ⟨[]⟩ [["1", "7", "", "", "", "active"]] false).1
    ⟨"sent", 1, 1, 1, 0, 0, 0⟩ (by decide) (Or.inl rfl) rfl

/-! ## C8: phone normalization -/

/-- C8: whenever the digit sequence of the input has one of the shapes
`380XXXXXXXXX` (12 digits), `80XXXXXXXXX` (11 digits) or `0XXXXXXXXX`
(10 digits), `normalize_ua_phone` returns exactly `"+380"` followed by
the last nine digits; for every other digit shape (including the empty
input) it returns `none`. -/
theorem normalize_ua_phone_spec (raw : String) :
    (((phone_digits raw).length = 12 ∧ (phone_digits raw).take 3 = [ '3', '8', '0' ]) ∨
      ((phone_digits raw).length = 11 ∧ (phone_digits raw).take 2 = [ '8', '0' ]) ∨
      ((phone_digits raw).length = 10 ∧ (phone_digits raw).take 1 = [ '0' ]) →
        normalize_ua_phone raw = some (String.mk ([ '+', '3', '8', '0' ] ++
          (phone_digits raw).drop ((phone_digits raw).length - 9)))) ∧
    (¬(((phone_digits raw).length = 12 ∧ (phone_digits raw).take 3 = [ '3', '8', '0' ]) ∨
        ((phone_digits raw).length = 11 ∧ (phone_digits raw).take 2 = [ '8', '0' ]) ∨
        ((phone_digits raw).length = 10 ∧ (phone_digits raw).take 1 = [ '0' ])) →
      normalize_ua_phone raw = none) := by
  have hmt : (raw == "") = true → phone_digits raw = [] := by
    intro h
    rw [beq_iff_eq] at h
    subst h
    rfl
  have hiff : ∀ (p : List Char) (n : Nat),
      ((p.isPrefixOf (phone_digits raw) && (phone_digits raw).length = n) = true ↔
        ((phone_digits raw).length = n ∧ (phone_digits raw).take p.length = p)) := by
    intro p n
    rw [Bool.and_eq_true, decide_eq_true_eq, List.isPrefixOf_iff_prefix,
      List.prefix_iff_eq_take, and_comm]
    exact and_congr_right (fun _ => ⟨fun h => h.symm, fun h => h.symm⟩)
  constructor
  · rintro (⟨hlen, htake⟩ | ⟨hlen, htake⟩ | ⟨hlen, htake⟩) <;>
      (have hne : (raw == "") = false := by
        cases h : raw == ""
        · rfl
        · rw [hmt h] at hlen; simp at hlen) <;>
      unfold normalize_ua_phone <;>
      simp only [hne, Bool.false_eq_true, if_false]
    · rw [if_pos ((hiff [ '3', '8', '0' ] 12).mpr ⟨hlen, htake⟩)]
      have hsplit : phone_digits raw =
          [ '3', '8', '0' ] ++ (phone_digits raw).drop 3 := by
        conv_lhs => rw [← List.take_append_drop 3 (phone_digits raw)]
        rw [htake]
      rw [hlen, show (12 : Nat) - 9 = 3 from rfl]
      exact congrArg (fun l => some (String.mk ([ '+' ] ++ l))) hsplit
    · rw [if_neg (by simp [hlen]), if_pos ((hiff [ '8', '0' ] 11).mpr ⟨hlen, htake⟩)]
      have hsplit : phone_digits raw =
          [ '8', '0' ] ++ (phone_digits raw).drop 2 := by
        conv_lhs => rw [← List.take_append_drop 2 (phone_digits raw)]
        rw [htake]
      rw [hlen, show (11 : Nat) - 9 = 2 from rfl]
      exact congrArg (fun l => some (String.mk ([ '+', '3' ] ++ l))) hsplit
    · rw [if_neg (by simp [hlen]), if_neg (by simp [hlen]),
        if_pos ((hiff [ '0' ] 10).mpr ⟨hlen, htake⟩)]
      have hsplit : phone_digits raw =
          [ '0' ] ++ (phone_digits raw).drop 1 := by
        conv_lhs => rw [← List.take_append_drop 1 (phone_digits raw)]
        rw [htake]
      rw [hlen, show (10 : Nat) - 9 = 1 from rfl]
      exact congrArg (fun l => some (String.mk ([ '+', '3', '8' ] ++ l))) hsplit
  · intro hnot
    unfold normalize_ua_phone
    cases hne : raw == ""
    · simp only [hne, Bool.false_eq_true, if_false]
      rw [if_neg, if_neg, if_neg]
      · intro hc
        exact hnot (Or.inr (Or.inr ((hiff [ '0' ] 10).mp hc)))
      · intro hc
        exact hnot (Or.inr (Or.inl ((hiff [ '8', '0' ] 11).mp hc)))
      · intro hc
        exact hnot (Or.inl ((hiff [ '3', '8', '0' ] 12).mp hc))
    · simp

/-- Witness for C8: one accepted input of each shape, and a rejected
shape. -/
theorem normalize_ua_phone_spec_witness :
    normalize_ua_phone "0501234567" = some "+380501234567" ∧
    normalize_ua_phone "+38 (050) 123-45-67" = some "+380501234567" ∧
    normalize_ua_phone "12345" = none := by
  refine ⟨?_, ?_, ?_⟩
  · have h := (normalize_ua_phone_spec "0501234567").1 (by decide)
    simpa using h
  · have h := (normalize_ua_phone_spec "+38 (050) 123-45-67").1 (by decide)
    simpa using h
  · exact (normalize_ua_phone_spec "12345").2 (by decide)

/-! ## C9: city/branch splitting vs. display vs. CRM comment -/

theorem takeWhile_append_comma (l1 l2 : List Char) (h : ',' ∉ l1) :
    (l1 ++ ',' :: l2).takeWhile (fun c => c ≠ ',') = l1 := by
  induction l1 with
  | nil => simp [List.takeWhile_cons]
  | cons a l ih =>
      have ha : a ≠ ',' := fun he => h (he ▸ List.mem_cons_self a l)
      rw [List.cons_append, List.takeWhile_cons,
        if_pos (show decide (a ≠ ',') = true by simp [ha]),
        ih (fun hm => h (List.mem_cons_of_mem a hm))]

theorem dropWhile_append_comma (l1 l2 : List Char) (h : ',' ∉ l1) :
    (l1 ++ ',' :: l2).dropWhile (fun c => c ≠ ',') = ',' :: l2 := by
  induction l1 with
  | nil => simp [List.dropWhile_cons]
  | cons a l ih =>
      have ha : a ≠ ',' := fun he => h (he ▸ List.mem_cons_self a l)
      rw [List.cons_append, List.dropWhile_cons,
        if_pos (show decide (a ≠ ',') = true by simp [ha]),
        ih (fun hm => h (List.mem_cons_of_mem a hm))]

/-- C9 counterexample: for the entered string `"Lviv ,3"` the CRM
comment re-joins the trimmed parts as `"Lviv, 3"`, which is not the
entered combined string, contradicting the claim that the CRM comment
carries the entered string verbatim. -/
theorem city_branch_crm_comment_counterexample :
    city_branch_store "Lviv ,3" = "Lviv ,3" ∧
    split_city_branch "Lviv ,3" = ("Lviv", "3") ∧
    crm_comment (delivery_text "Lviv" "3") = "Delivery: Lviv, 3" ∧
    crm_comment (delivery_text "Lviv" "3") ≠ crm_comment "Lviv ,3" ∧
    OrderEffect.crmSendOrder (crm_order_id 1 42) "Delivery: Lviv, 3" ∈
      submit_order ⟨1, "P", "9", "9", "Ivan", "+380501234567", "Lviv ,3"⟩ 42 false := by
  decide

/-- C9 (amended): for a stored city/branch string (the handler stores the
entered text stripped of outer whitespace), the customer record gets the
trimmed part before the first comma as city and the trimmed remainder as
branch (empty when no comma); the buyer-facing confirmation summary shows
the stored string verbatim; the CRM comment instead carries
`"Delivery: "` followed by the trimmed parts re-joined with `", "`, which
coincides with the entered string only when it already has exactly that
shape. -/
theorem city_branch_handling (d : OrderData)
    (h : strip d.city_branch = d.city_branch) :
    (',' ∉ d.city_branch.toList →
      split_city_branch d.city_branch = (d.city_branch, "")) ∧
    (∀ pre post : String, d.city_branch = pre ++ "," ++ post → ',' ∉ pre.toList →
      split_city_branch d.city_branch = (strip pre, strip post)) ∧
    (∃ p : String, confirmation_summary d = p ++ d.city_branch) ∧
    (∀ user_id crmFails,
      OrderEffect.saveCustomer (split_city_branch d.city_branch).1
          (split_city_branch d.city_branch).2 ∈ submit_order d user_id crmFails ∧
      OrderEffect.crmSendOrder (crm_order_id d.product_id user_id)
          (crm_comment (delivery_text (split_city_branch d.city_branch).1
            (split_city_branch d.city_branch).2)) ∈ submit_order d user_id crmFails) := by
  refine ⟨fun hnc => ?_, fun pre post hsplit hnc => ?_, ⟨_, rfl⟩, fun user_id crmFails => ?_⟩
  · unfold split_city_branch
    rw [h]
    rw [if_neg]
    simp only [List.contains_eq_any_beq, List.any_eq_true, beq_iff_eq, not_exists, not_and]
    exact fun c hc he => hnc (he ▸ hc)
  · have htl : d.city_branch.toList = pre.toList ++ ',' :: post.toList := by
      rw [hsplit]
      show (pre ++ "," ++ post).data = pre.data ++ ',' :: post.data
      rw [String.data_append, String.data_append, List.append_assoc]
      rfl
    unfold split_city_branch
    rw [h]
    rw [if_pos]
    · rw [htl, takeWhile_append_comma pre.toList post.toList hnc,
        dropWhile_append_comma pre.toList post.toList hnc]
      rfl
    · rw [htl, List.contains_eq_any_beq]
      simp only [List.any_eq_true, beq_iff_eq]
      exact ⟨',', List.mem_append_right _ (List.mem_cons_self _ _), rfl⟩
  · unfold submit_order
    cases hcrm : crm_send_order crmFails <;> simp

/-- Witness for C9: the split, summary and CRM-comment facts at the
concrete entered string `"Lviv, 3"` (the claim's own example shape). -/
theorem city_branch_handling_witness :
    split_city_branch "Lviv, 3" = ("Lviv", "3") := by
  have h := (city_branch_handling ⟨1, "P", "9", "9", "Ivan", "+380", "Lviv, 3"⟩
    (by decide)).2.1 "Lviv" " 3" (by decide) (by decide)
  simpa using h

/-! ## C7: CRM failure tolerance of the two confirmation paths -/

/-- C7 (evaluation at the failing input): on the reuse-saved-data path a
CRM `send_order` failure propagates out of `confirm_existing_order`
before the operations-chat notification, the buyer acknowledgment and
the state clearing, while on the normal submit path the very same CRM
failure is swallowed and the buyer acknowledgment and state clearing
still run. -/
theorem confirm_existing_crm_failure_skips_effects :
    (confirm_existing_order ⟨1, "P", "9", "9", "Ivan", "+380501234567", "Kyiv, 7"⟩
        (some ⟨"Ivan", "+380501234567", "Kyiv", "7"⟩) 42 true).2 = false ∧
    OrderEffect.ackBuyer ∉
      (confirm_existing_order ⟨1, "P", "9", "9", "Ivan", "+380501234567", "Kyiv, 7"⟩
        (some ⟨"Ivan", "+380501234567", "Kyiv", "7"⟩) 42 true).1 ∧
    OrderEffect.clearState ∉
      (confirm_existing_order ⟨1, "P", "9", "9", "Ivan", "+380501234567", "Kyiv, 7"⟩
        (some ⟨"Ivan", "+380501234567", "Kyiv", "7"⟩) 42 true).1 ∧
    OrderEffect.notifyOrdersGroup "Kyiv, 7" ∉
      (confirm_existing_order ⟨1, "P", "9", "9", "Ivan", "+380501234567", "Kyiv, 7"⟩
        (some ⟨"Ivan", "+380501234567", "Kyiv", "7"⟩) 42 true).1 ∧
    (∀ crmFails,
      OrderEffect.ackBuyer ∈
        submit_order ⟨1, "P", "9", "9", "Ivan", "+380501234567", "Kyiv, 7"⟩ 42 crmFails ∧
      OrderEffect.clearState ∈
        submit_order ⟨1, "P", "9", "9", "Ivan", "+380501234567", "Kyiv, 7"⟩ 42 crmFails) := by
  decide

/-! ## C10: recording a blocked chat is idempotent -/

theorem handle_forbidden_nodup (st : SafeSenderState) (e : Option Int)
    (h : st.pending.Nodup) : (handle_forbidden st e).pending.Nodup := by
  unfold handle_forbidden
  cases e with
  | none => exact h
  | some c =>
      by_cases hc : c ∈ st.pending
      · simpa [hc]
      · simpa [hc] using List.Nodup.append h (List.nodup_singleton c)
          (List.disjoint_singleton.mpr hc)

theorem handle_forbidden_mem_mono (st : SafeSenderState) (e : Option Int) (c : Int)
    (h : c ∈ st.pending) : c ∈ (handle_forbidden st e).pending := by
  unfold handle_forbidden
  cases e with
  | none => exact h
  | some a =>
      by_cases ha : a ∈ st.pending
      · simpa [ha]
      · simp only [ha, if_false]
        exact List.mem_append_left _ h

theorem foldl_handle_forbidden_nodup (events : List (Option Int)) :
    ∀ st : SafeSenderState, st.pending.Nodup →
      (events.foldl handle_forbidden st).pending.Nodup := by
  induction events with
  | nil => exact fun st h => h
  | cons e rest ih => exact fun st h => ih _ (handle_forbidden_nodup st e h)

theorem foldl_handle_forbidden_mem (events : List (Option Int)) :
    ∀ (st : SafeSenderState) (c : Int), c ∈ st.pending →
      c ∈ (events.foldl handle_forbidden st).pending := by
  induction events with
  | nil => exact fun st c h => h
  | cons e rest ih => exact fun st c h => ih _ c (handle_forbidden_mem_mono st e c h)

theorem foldl_handle_forbidden_mem_of_event (events : List (Option Int)) :
    ∀ (st : SafeSenderState) (c : Int), some c ∈ events →
      c ∈ (events.foldl handle_forbidden st).pending := by
  induction events with
  | nil =>
      intro st c h
      simp at h
  | cons e rest ih =>
      intro st c h
      rcases List.mem_cons.mp h with he | hr
      · subst he
        exact foldl_handle_forbidden_mem rest _ c (mem_handle_forbidden st c)
      · exact ih _ c hr

/-- C10: however many times a blocked delivery is recorded for a chat
between two flushes (at least once, in any interleaving with other
chats), the pending-forbidden set holds that chat id exactly once, and
the next flush awaits at most one directory update for it. -/
theorem record_forbidden_idempotent (st : SafeSenderState) (events : List (Option Int))
    (chat : Int) (hnodup : st.pending.Nodup) (hmem : some chat ∈ events) :
    ((events.foldl handle_forbidden st).pending.count chat = 1) ∧
    (∀ (dir : Directory) (max_updates : Nat) (upd : Int → UpdateOutcome),
      (flush_pending_forbidden_statuses (events.foldl handle_forbidden st) dir max_updates
          upd).processed.count chat ≤ 1) := by
  have hnd : (events.foldl handle_forbidden st).pending.Nodup :=
    foldl_handle_forbidden_nodup events st hnodup
  have hin : chat ∈ (events.foldl handle_forbidden st).pending :=
    foldl_handle_forbidden_mem_of_event events st chat hmem
  have hle : (events.foldl handle_forbidden st).pending.count chat ≤ 1 :=
    List.nodup_iff_count_le_one.mp hnd chat
  have hpos : 0 < (events.foldl handle_forbidden st).pending.count chat :=
    List.count_pos_iff.mpr hin
  refine ⟨by omega, fun dir max_updates upd => ?_⟩
  unfold flush_pending_forbidden_statuses
  by_cases hemp : (events.foldl handle_forbidden st).pending.isEmpty
  · simp [hemp]
  · simp only [hemp, Bool.false_eq_true, if_false]
    exact le_trans
      ((List.take_sublist _ _).count_le chat)
      (List.nodup_iff_count_le_one.mp hnd chat)

/-- Witness for C10: chat 5 reported blocked twice (with another chat in
between) is pending exactly once. -/
theorem record_forbidden_idempotent_witness :
    (([some 5, some 9, some 5] : List (Option Int)).foldl handle_forbidden
      ⟨[]⟩).pending.count 5 = 1 :=
  (record_forbidden_idempotent ⟨[]⟩ [some 5, some 9, some 5] 5 (by decide) (by decide)).1

/-! ## C5: a flush never drops a pending entry -/

theorem flush_fold_mem_mono (upd : Int → UpdateOutcome) (L : List Int) :
    ∀ (acc : Nat × List Int × Directory) (c : Int), c ∈ acc.2.1 →
      c ∈ (L.foldl (flush_step upd) acc).2.1 := by
  induction L with
  | nil => exact fun acc c h => h
  | cons a rest ih =>
      intro acc c h
      refine ih _ c ?_
      unfold flush_step
      cases upd a
      · exact h
      · exact List.mem_append_left _ h
      · exact List.mem_append_left _ h

theorem flush_fold_requeue (upd : Int → UpdateOutcome) (L : List Int) :
    ∀ (acc : Nat × List Int × Directory) (c : Int), c ∈ L → upd c ≠ .success →
      c ∈ (L.foldl (flush_step upd) acc).2.1 := by
  induction L with
  | nil => intro acc c h; simp at h
  | cons a rest ih =>
      intro acc c h hupd
      rcases List.mem_cons.mp h with he | hr
      · subst he
        refine flush_fold_mem_mono upd rest _ c ?_
        unfold flush_step
        cases hu : upd c
        · exact absurd hu hupd
        · exact List.mem_append_right _ (List.mem_singleton.mpr rfl)
        · exact List.mem_append_right _ (List.mem_singleton.mpr rfl)
      · exact ih _ c hr hupd

/-- C5: every chat id pending at the start of a flush either has its
directory update awaited successfully during the call, or is back in the
pending set when the call returns — entries beyond the bound and entries
whose update times out or raises are re-queued, never dropped. -/
theorem flush_no_drop (st : SafeSenderState) (dir : Directory) (max_updates : Nat)
    (upd : Int → UpdateOutcome) (chat : Int) (h : chat ∈ st.pending) :
    (chat ∈ (flush_pending_forbidden_statuses st dir max_updates upd).processed ∧
        upd chat = .success) ∨
      chat ∈ (flush_pending_forbidden_statuses st dir max_updates upd).state.pending := by
  unfold flush_pending_forbidden_statuses
  have hemp : st.pending.isEmpty = false := by
    cases hp : st.pending.isEmpty
    · rfl
    · rw [List.isEmpty_eq_true] at hp
      rw [hp] at h
      simp at h
  simp only [hemp, Bool.false_eq_true, if_false]
  have hsplit : chat ∈ st.pending.take (max 1 max_updates) ∨
      chat ∈ st.pending.drop (max 1 max_updates) := by
    rw [← List.mem_append, List.take_append_drop]
    exact h
  rcases hsplit with htk | hdr
  · by_cases hupd : upd chat = .success
    · exact Or.inl ⟨htk, hupd⟩
    · exact Or.inr (flush_fold_requeue upd _ _ chat htk hupd)
  · exact Or.inr (flush_fold_mem_mono upd _ _ chat hdr)

/-- Witness for C5: a pending chat whose update raises is re-queued. -/
theorem flush_no_drop_witness :
    (7 : Int) ∈ (flush_pending_forbidden_statuses ⟨[7]⟩ [] 1
      (fun _ => UpdateOutcome.failure)).state.pending := by
  have h := flush_no_drop ⟨[7]⟩ [] 1 (fun _ => UpdateOutcome.failure) 7 (by decide)
  exact h.resolve_left (by decide)

/-! ## C6: a broadcast over blocked and reachable chats

Setup: a transport where every chat either delivers every send or is
permanently blocked (`TelegramForbiddenError` on the first send), and a
directory whose rows carry canonically printed chat ids. -/

/-- The transport script of the C6 scenario: chat `c` is blocked iff
`B c`. -/
def blockScript (B : Int → Bool) : SendScript :=
  fun chat_id _attempt _idx =>
    if B chat_id then TransportOutcome.forbidden else TransportOutcome.ok ⟨0⟩

/-- The C6 environment: products load fine, the directory read works, the
transport follows `blockScript`, and the flush's directory updates all
succeed. -/
def blockedEnv (B : Int → Bool) (products : List Product) : BroadcastEnv :=
  ⟨.ok products, false, blockScript B, fun _ => .success⟩

/-- The (stripped) chat-id cell of a row, the key `update_status_by_chat_id`
matches on. -/
def cellOf (row : List String) : String :=
  strip (row.getD (CHAT_ID_COLUMN - 1) "")

/-- Marking a row as left: what `update_cell(row, STATUS_COLUMN, "left")`
does to it. -/
def mark (row : List String) : List String :=
  set_cell row STATUS_COLUMN "left"

/-- The status cell of the row `update_status_by_chat_id` would address
for a chat id (`none` when the directory has no row for it). -/
def chat_status (rows : Directory) (chat_id : Int) : Option String :=
  (find_row_by_chat_id rows chat_id).map
    (fun i => (rows.getD i []).getD (STATUS_COLUMN - 1) "")

/-- A directory row whose chat-id cell is a canonically printed integer:
the cell is exactly `str(c)`, which strips to itself and parses back to
`c`. -/
def CanonicalRow (row : List String) : Prop :=
  row.length = 6 ∧
    ∃ c : Int, row.getD 1 "" = toString c ∧ strip (toString c) = toString c ∧
      py_int? (toString c) = some c

theorem filter_length_partition (p : Int → Bool) (L : List Int) :
    (L.filter p).length + (L.filter (fun a => !p a)).length = L.length := by
  induction L with
  | nil => rfl
  | cons a l ih =>
      by_cases ha : p a <;> simp [List.filter_cons, ha, ← ih] <;> omega

theorem iter_chunks_go_foldl {α : Type} (f : α → Int → α) (n : Nat) (hn : n ≠ 0) :
    ∀ (fuel : Nat) (L : List Int), L.length ≤ fuel → ∀ (a : α),
      (iter_chunks_go n fuel L).foldl (fun acc batch => batch.foldl f acc) a =
        L.foldl f a := by
  intro fuel
  induction fuel with
  | zero =>
      intro L hL a
      rw [Nat.le_zero, List.length_eq_zero] at hL
      subst hL
      rfl
  | succ fuel ih =>
      intro L hL a
      match L with
      | [] => rfl
      | x :: xs =>
          rw [show iter_chunks_go n (fuel + 1) (x :: xs) =
              (x :: xs).take n :: iter_chunks_go n fuel ((x :: xs).drop n) from rfl,
            List.foldl_cons]
          rw [ih ((x :: xs).drop n) (by rw [List.length_drop]; omega)]
          rw [← List.foldl_append, List.take_append_drop]

theorem iter_chunks_foldl {α : Type} (f : α → Int → α) (L : List Int) (n : Nat)
    (hn : n ≠ 0) (a : α) :
    (_iter_chunks L n).foldl (fun acc batch => batch.foldl f acc) a = L.foldl f a := by
  unfold _iter_chunks
  rw [if_neg (by simpa using hn)]
  exact iter_chunks_go_foldl f n hn L.length L (Nat.le_refl _) a

theorem send_all_ok (chat_id : Int) :
    ∀ (products : List Product) (st : SafeSenderState) (idx : Nat),
      _send_products_to_chat (fun _ => TransportOutcome.ok ⟨0⟩) st chat_id products idx =
        .ok (true, st) := by
  intro products
  induction products with
  | nil => intro st idx; rfl
  | cons p rest ih => intro st idx; exact ih st (idx + 1)

theorem send_products_cons (script : Nat → TransportOutcome) (st : SafeSenderState)
    (chat_id : Int) (p : Product) (rest : List Product) (idx : Nat) :
    _send_products_to_chat script st chat_id (p :: rest) idx =
      (match send_photo st chat_id (script idx) with
      | Except.error e => Except.error e
      | Except.ok (none, st1) => Except.ok (false, st1)
      | Except.ok (some _, st1) => _send_products_to_chat script st1 chat_id rest (idx + 1)) :=
  rfl

theorem retry_loop_succ (script : SendScript) (chat_id : Int) (products : List Product)
    (max_attempts remaining : Nat) (st : SafeSenderState) :
    retry_loop script chat_id products max_attempts (remaining + 1) st =
      (match _send_products_to_chat (script chat_id (max_attempts - remaining)) st chat_id
          products 0 with
      | Except.ok (true, st1) => ("success", st1)
      | Except.ok (false, st1) => ("forbidden", st1)
      | Except.error e =>
          if e.retryable && remaining != 0 then
            retry_loop script chat_id products max_attempts remaining st
          else
            ((if e.retryable then "temporary_error" else "permanent_error"), st)) :=
  rfl

theorem retry_block_spec (B : Int → Bool) (st : SafeSenderState) (chat_id : Int)
    (products : List Product) (hp : products ≠ []) :
    _send_products_with_retry (blockScript B) st chat_id products =
      (if B chat_id then ("forbidden", handle_forbidden st (some chat_id))
        else ("success", st)) := by
  match products with
  | p :: rest =>
      show retry_loop (blockScript B) chat_id (p :: rest) 3 3 st = _
      rw [show (3 : Nat) = 2 + 1 from rfl, retry_loop_succ]
      by_cases hb : B chat_id
      · have hscr : blockScript B chat_id (3 - 2) 0 = TransportOutcome.forbidden := by
          simp [blockScript, hb]
        rw [send_products_cons, hscr]
        simp [send_photo, hb]
      · have hfn : blockScript B chat_id (3 - 2) = fun _ => TransportOutcome.ok ⟨0⟩ := by
          funext idx
          simp [blockScript, hb]
        rw [hfn, send_all_ok chat_id (p :: rest) st 0]
        simp [hb]

theorem broadcast_fold_spec (B : Int → Bool) (products : List Product)
    (hp : products ≠ []) (L : List Int) :
    ∀ (c0 : BCounts) (st0 : SafeSenderState), L.Nodup → (∀ c ∈ L, c ∉ st0.pending) →
      L.foldl (broadcast_chat_step (blockScript B) products) (c0, st0) =
        (⟨c0.success + (L.filter (fun c => !B c)).length,
            c0.forbidden + (L.filter B).length,
            c0.temporary_errors, c0.permanent_errors⟩,
          ⟨st0.pending ++ L.filter B⟩) := by
  induction L with
  | nil =>
      intro c0 st0 _ _
      simp
  | cons a rest ih =>
      intro c0 st0 hnd hnp
      have hnotmem : a ∉ st0.pending := hnp a (List.mem_cons_self a rest)
      have hhf : handle_forbidden st0 (some a) = ⟨st0.pending ++ [a]⟩ := by
        show (if a ∈ st0.pending then st0 else ⟨st0.pending ++ [a]⟩) = _
        rw [if_neg hnotmem]
      rw [List.foldl_cons]
      by_cases hb : B a
      · have hstep : broadcast_chat_step (blockScript B) products (c0, st0) a =
            (c0.add "forbidden", ⟨st0.pending ++ [a]⟩) := by
          unfold broadcast_chat_step
          rw [retry_block_spec B st0 a products hp, if_pos hb, hhf]
        rw [hstep, ih (c0.add "forbidden") ⟨st0.pending ++ [a]⟩
          (List.Nodup.of_cons hnd)
          (fun c hc hmem => by
            rcases List.mem_append.mp hmem with h1 | h2
            · exact hnp c (List.mem_cons_of_mem a hc) h1
            · rw [List.mem_singleton] at h2
              subst h2
              exact (List.nodup_cons.mp hnd).1 hc)]
        have hadd : c0.add "forbidden" =
            ⟨c0.success, c0.forbidden + 1, c0.temporary_errors, c0.permanent_errors⟩ := rfl
        rw [hadd]
        simp only [List.filter_cons, hb, Bool.not_true, if_true, if_false,
          Bool.false_eq_true, List.length_cons, Prod.mk.injEq, BCounts.mk.injEq,
          SafeSenderState.mk.injEq, List.append_assoc, List.singleton_append,
          true_and, and_true]
        omega
      · have hstep : broadcast_chat_step (blockScript B) products (c0, st0) a =
            (c0.add "success", st0) := by
          unfold broadcast_chat_step
          rw [retry_block_spec B st0 a products hp, if_neg (by simp [hb])]
        rw [hstep, ih (c0.add "success") st0 (List.Nodup.of_cons hnd)
          (fun c hc => hnp c (List.mem_cons_of_mem a hc))]
        have hadd : c0.add "success" =
            ⟨c0.success + 1, c0.forbidden, c0.temporary_errors, c0.permanent_errors⟩ := rfl
        rw [hadd]
        simp only [List.filter_cons, hb, Bool.not_false, if_true, if_false,
          Bool.false_eq_true, List.length_cons, Prod.mk.injEq, BCounts.mk.injEq,
          SafeSenderState.mk.injEq, true_and, and_true]
        omega

theorem flush_all_success_fold (L : List Int) :
    ∀ (n : Nat) (l0 : List Int) (dir : Directory),
      L.foldl (flush_step (fun _ => UpdateOutcome.success)) (n, l0, dir) =
        (n + L.length, l0,
          L.foldl (fun d c => update_status_by_chat_id d c false) dir) := by
  induction L with
  | nil =>
      intro n l0 dir
      simp
  | cons a rest ih =>
      intro n l0 dir
      rw [List.foldl_cons, List.foldl_cons,
        show flush_step (fun _ => UpdateOutcome.success) (n, l0, dir) a =
          (n + 1, l0, update_status_by_chat_id dir a false) from rfl,
        ih]
      simp only [List.length_cons, Prod.mk.injEq, true_and, and_true]
      omega

theorem flush_spec_success (P : List Int) (dir : Directory) :
    flush_pending_forbidden_statuses ⟨P⟩ dir 30 (fun _ => UpdateOutcome.success) =
      ⟨(P.take 30).length, P.take 30, ⟨P.drop 30⟩,
        (P.take 30).foldl (fun d c => update_status_by_chat_id d c false) dir⟩ := by
  match P with
  | [] => rfl
  | a :: P1 =>
      simp only [flush_pending_forbidden_statuses, List.isEmpty_cons, Bool.false_eq_true,
        if_false, show max 1 30 = 30 from rfl, flush_all_success_fold, Nat.zero_add]

/-! Directory update lemmas for C6. -/

theorem mark_eq_set (row : List String) (h : row.length = 6) :
    mark row = row.set 5 "left" := by
  unfold mark set_cell STATUS_COLUMN
  rw [h]
  simp

theorem mark_length (row : List String) (h : row.length = 6) :
    (mark row).length = 6 := by
  rw [mark_eq_set row h, List.length_set]
  exact h

theorem cellOf_mark (row : List String) (h : row.length = 6) :
    cellOf (mark row) = cellOf row := by
  rw [mark_eq_set row h]
  unfold cellOf CHAT_ID_COLUMN
  rw [List.getD_eq_getElem?_getD, List.getD_eq_getElem?_getD,
    List.getElem?_set_ne (by omega)]

theorem mark_mark (row : List String) (h : row.length = 6) :
    mark (mark row) = mark row := by
  rw [mark_eq_set (mark row) (mark_length row h), mark_eq_set row h, List.set_set]

theorem mark_status (row : List String) (h : row.length = 6) :
    (mark row).getD (STATUS_COLUMN - 1) "" = "left" := by
  rw [mark_eq_set row h]
  show (row.set 5 "left").getD 5 "" = "left"
  rw [List.getD_eq_getElem?_getD, List.getElem?_set_self (by omega)]
  rfl

/-- The row predicate of `find_row_by_chat_id`, phrased through
`cellOf`. -/
theorem find_pred_eq (c : Int) (row : List String) :
    (strip (row.getD (CHAT_ID_COLUMN - 1) "") == toString c) = (cellOf row == toString c) :=
  rfl

theorem update_status_eq_map (c : Int) :
    ∀ dir : Directory, (dir.map cellOf).Nodup →
      update_status_by_chat_id dir c false =
        dir.map (fun row => if cellOf row = toString c then mark row else row) := by
  intro dir
  induction dir with
  | nil => intro _; rfl
  | cons row rest ih =>
      intro hnodup
      have hnd2 : (rest.map cellOf).Nodup := (List.nodup_cons.mp hnodup).2
      have hnotin : cellOf row ∉ rest.map cellOf := (List.nodup_cons.mp hnodup).1
      unfold update_status_by_chat_id find_row_by_chat_id
      rw [List.findIdx?_cons]
      by_cases hc : cellOf row = toString c
      · rw [if_pos (by rw [find_pred_eq, beq_iff_eq]; exact hc)]
        rw [List.map_cons, if_pos hc]
        have hrest : rest.map (fun r => if cellOf r = toString c then mark r else r) = rest := by
          conv_rhs => rw [← List.map_id rest]
          refine List.map_congr_left (fun r hr => ?_)
          have hne2 : cellOf r ≠ toString c :=
            fun he => hnotin (List.mem_map.mpr ⟨r, hr, he.trans hc.symm⟩)
          rw [if_neg hne2]
          rfl
        rw [hrest]
        rfl
      · rw [if_neg (by rw [find_pred_eq, beq_iff_eq]; exact hc)]
        rw [List.findIdx?_start_succ]
        rw [List.map_cons, if_neg hc]
        have hrec := ih hnd2
        unfold update_status_by_chat_id find_row_by_chat_id at hrec
        cases hidx : rest.findIdx?
            (fun r => strip (r.getD (CHAT_ID_COLUMN - 1) "") == toString c) with
        | none =>
            rw [hidx] at hrec
            exact congrArg (List.cons row) hrec
        | some i =>
            rw [hidx] at hrec
            exact congrArg (List.cons row) hrec

theorem updAll_eq_map (L : List Int) :
    ∀ dir : Directory, (∀ row ∈ dir, row.length = 6) → (dir.map cellOf).Nodup →
      L.foldl (fun d c => update_status_by_chat_id d c false) dir =
        dir.map (fun row => if cellOf row ∈ L.map toString then mark row else row) := by
  induction L with
  | nil =>
      intro dir _ _
      rw [List.foldl_nil]
      conv_lhs => rw [← List.map_id dir]
      refine List.map_congr_left (fun row _ => ?_)
      rw [if_neg (by simp)]
      rfl
  | cons c L1 ih =>
      intro dir hlen hnodup
      rw [List.foldl_cons, update_status_eq_map c dir hnodup]
      have hcell1 : ∀ row ∈ dir,
          cellOf (if cellOf row = toString c then mark row else row) = cellOf row := by
        intro row hr
        by_cases hcc : cellOf row = toString c
        · rw [if_pos hcc, cellOf_mark row (hlen row hr)]
        · rw [if_neg hcc]
      have hlen1 : ∀ row ∈
          dir.map (fun row => if cellOf row = toString c then mark row else row),
          row.length = 6 := by
        intro row hr
        obtain ⟨r0, hr0, hre⟩ := List.mem_map.mp hr
        subst hre
        by_cases hcc : cellOf r0 = toString c
        · rw [if_pos hcc]
          exact mark_length r0 (hlen r0 hr0)
        · rw [if_neg hcc]
          exact hlen r0 hr0
      have hnodup1 :
          ((dir.map (fun row => if cellOf row = toString c then mark row else row)).map
            cellOf).Nodup := by
        rw [List.map_map]
        have hmc : List.map
            (cellOf ∘ fun row => if cellOf row = toString c then mark row else row) dir =
            List.map cellOf dir :=
          List.map_congr_left (fun row hr => hcell1 row hr)
        rw [hmc]
        exact hnodup
      rw [ih _ hlen1 hnodup1, List.map_map]
      refine List.map_congr_left (fun row hr => ?_)
      show (if cellOf (if cellOf row = toString c then mark row else row) ∈ L1.map toString
          then mark (if cellOf row = toString c then mark row else row)
          else (if cellOf row = toString c then mark row else row)) =
        if cellOf row ∈ (c :: L1).map toString then mark row else row
      rw [hcell1 row hr]
      have hmem_cons : (cellOf row ∈ (c :: L1).map toString) ↔
          (cellOf row = toString c ∨ cellOf row ∈ L1.map toString) := by
        rw [List.map_cons, List.mem_cons]
      by_cases hcc : cellOf row = toString c <;>
        by_cases hm : cellOf row ∈ L1.map toString
      · rw [if_pos hcc, if_pos hm, if_pos (hmem_cons.mpr (Or.inl hcc)),
          mark_mark row (hlen row hr)]
      · rw [if_pos hcc, if_neg hm, if_pos (hmem_cons.mpr (Or.inl hcc))]
      · rw [if_neg hcc, if_pos hm, if_pos (hmem_cons.mpr (Or.inr hm))]
      · rw [if_neg hcc, if_neg hm, if_neg (fun hx => (hmem_cons.mp hx).elim hcc hm)]

theorem find_row_map_congr (c : Int) (g : List String → List String) :
    ∀ dir : Directory, (∀ row ∈ dir, cellOf (g row) = cellOf row) →
      find_row_by_chat_id (dir.map g) c = find_row_by_chat_id dir c := by
  intro dir
  induction dir with
  | nil => intro _; rfl
  | cons row rest ih =>
      intro hg
      unfold find_row_by_chat_id
      rw [List.map_cons, List.findIdx?_cons, List.findIdx?_cons]
      rw [show (strip ((g row).getD (CHAT_ID_COLUMN - 1) "") == toString c) =
          (strip (row.getD (CHAT_ID_COLUMN - 1) "") == toString c) from by
        rw [find_pred_eq, find_pred_eq, hg row (List.mem_cons_self row rest)]]
      by_cases hp : (strip (row.getD (CHAT_ID_COLUMN - 1) "") == toString c) = true
      · rw [if_pos hp, if_pos hp]
      · rw [if_neg hp, if_neg hp, List.findIdx?_start_succ, List.findIdx?_start_succ]
        have := ih (fun r hr => hg r (List.mem_cons_of_mem row hr))
        unfold find_row_by_chat_id at this
        rw [this]

theorem find_row_spec (c : Int) :
    ∀ dir : Directory, ∀ i : Nat, find_row_by_chat_id dir c = some i →
      i < dir.length ∧ cellOf (dir.getD i []) = toString c := by
  intro dir
  induction dir with
  | nil =>
      intro i h
      simp [find_row_by_chat_id] at h
  | cons row rest ih =>
      intro i h
      unfold find_row_by_chat_id at h
      rw [List.findIdx?_cons] at h
      by_cases hp : (strip (row.getD (CHAT_ID_COLUMN - 1) "") == toString c) = true
      · rw [if_pos hp] at h
        obtain rfl : (0 : Nat) = i := Option.some.inj h
        refine ⟨by simp, ?_⟩
        rw [← beq_iff_eq]
        exact hp
      · rw [if_neg hp, List.findIdx?_start_succ] at h
        cases hidx : List.findIdx?
            (fun row => strip (row.getD (CHAT_ID_COLUMN - 1) "") == toString c) rest with
        | none =>
            rw [hidx] at h
            simp at h
        | some j =>
            rw [hidx] at h
            have hj := ih j hidx
            obtain rfl : j + (0 + 1) = i := Option.some.inj h
            refine ⟨by simp only [List.length_cons]; omega, ?_⟩
            show cellOf (rest.getD j []) = toString c
            exact hj.2

theorem find_row_exists (c : Int) :
    ∀ dir : Directory, (∃ row ∈ dir, cellOf row = toString c) →
      ∃ i, find_row_by_chat_id dir c = some i := by
  intro dir
  induction dir with
  | nil =>
      intro h
      simp at h
  | cons row rest ih =>
      intro h
      unfold find_row_by_chat_id
      rw [List.findIdx?_cons]
      by_cases hp : (strip (row.getD (CHAT_ID_COLUMN - 1) "") == toString c) = true
      · exact ⟨0, by rw [if_pos hp]⟩
      · obtain ⟨r0, hr0, hc0⟩ := h
        rcases List.mem_cons.mp hr0 with h1 | h2
        · subst h1
          rw [find_pred_eq, beq_iff_eq] at hp
          exact absurd hc0 hp
        · obtain ⟨j, hj⟩ := ih ⟨r0, h2, hc0⟩
          unfold find_row_by_chat_id at hj
          rw [if_neg hp, List.findIdx?_start_succ, hj]
          exact ⟨j + (0 + 1), rfl⟩

/-- The per-row body of `get_chat_ids`, named for reasoning. -/
def rowFn (row : List String) : Option Int :=
  if row.length < 2 then
    none
  else if STATUS_COLUMN ≤ row.length &&
      lower (strip (row.getD (STATUS_COLUMN - 1) "")) == "left" then
    none
  else
    parse_chat_id (row.getD 1 "")

theorem get_chat_ids_eq (rows : Directory) : get_chat_ids rows = rows.filterMap rowFn :=
  rfl

theorem rowFn_some_canonical (row : List String) (hcanon : CanonicalRow row) (c : Int)
    (h : rowFn row = some c) :
    row.getD 1 "" = toString c ∧ strip (toString c) = toString c ∧
      py_int? (toString c) = some c ∧ cellOf row = toString c := by
  obtain ⟨hlen, c2, hcell, hstrip, hparse⟩ := hcanon
  unfold rowFn at h
  rw [if_neg (by omega)] at h
  by_cases hst : (STATUS_COLUMN ≤ row.length &&
      lower (strip (row.getD (STATUS_COLUMN - 1) "")) == "left") = true
  · rw [if_pos hst] at h
    exact absurd h (by simp)
  · rw [if_neg hst] at h
    rw [hcell] at h
    have h2 : py_int? (toString c2) = some c := h
    have hc2 : c2 = c := Option.some.inj (hparse.symm.trans h2)
    subst hc2
    have h5 : row.getD (CHAT_ID_COLUMN - 1) "" = toString c2 := hcell
    refine ⟨hcell, hstrip, hparse, ?_⟩
    unfold cellOf
    rw [h5, hstrip]

theorem rowFn_mark (row : List String) (hlen : row.length = 6) :
    rowFn (mark row) = none := by
  unfold rowFn
  rw [if_neg (by rw [mark_length row hlen]; omega)]
  rw [if_pos]
  rw [mark_length row hlen, mark_status row hlen]
  decide

theorem get_chat_ids_nodup :
    ∀ dir : Directory, (∀ row ∈ dir, CanonicalRow row) → (dir.map cellOf).Nodup →
      (get_chat_ids dir).Nodup := by
  intro dir
  induction dir with
  | nil =>
      intro _ _
      exact List.nodup_nil
  | cons row rest ih =>
      intro hcanon hnodup
      rw [get_chat_ids_eq, List.filterMap_cons]
      have hnd2 := (List.nodup_cons.mp hnodup).2
      have hnotin := (List.nodup_cons.mp hnodup).1
      have ihh := ih (fun r hr => hcanon r (List.mem_cons_of_mem row hr)) hnd2
      rw [get_chat_ids_eq] at ihh
      cases hf : rowFn row with
      | none => exact ihh
      | some c =>
          refine List.nodup_cons.mpr ⟨?_, ihh⟩
          intro hmem
          obtain ⟨r2, hr2, hf2⟩ := List.mem_filterMap.mp hmem
          have h1 := rowFn_some_canonical row (hcanon row (List.mem_cons_self row rest)) c hf
          have h2 := rowFn_some_canonical r2 (hcanon r2 (List.mem_cons_of_mem row hr2)) c hf2
          refine hnotin ?_
          rw [h1.2.2.2, ← h2.2.2.2]
          exact List.mem_map.mpr ⟨r2, hr2, rfl⟩

theorem broadcast_impl_run (B : Int → Bool) (products : List Product) (dir : Directory)
    (hp : products ≠ []) (hne : get_chat_ids dir ≠ [])
    (hnd : (get_chat_ids dir).Nodup) :
    _broadcast_promo_impl (blockedEnv B products) ⟨[]⟩ dir =
      (⟨"sent", (get_chat_ids dir).length, products.length,
          ((get_chat_ids dir).filter (fun c => !B c)).length,
          ((get_chat_ids dir).filter B).length, 0, 0⟩,
        ⟨((get_chat_ids dir).filter B).drop 30⟩,
        (((get_chat_ids dir).filter B).take 30).foldl
          (fun d c => update_status_by_chat_id d c false) dir,
        [Effect.loadProducts, Effect.loadChats] ++
          (get_chat_ids dir).map Effect.sendToChat ++ [Effect.flushUpdates]) := by
  have hchunks := iter_chunks_foldl (broadcast_chat_step (blockScript B) products)
    (get_chat_ids dir) 20 (by decide) (({} : BCounts), (⟨[]⟩ : SafeSenderState))
  have hfold := broadcast_fold_spec B products hp (get_chat_ids dir) {} ⟨[]⟩ hnd
    (fun c _ hmem => by simp at hmem)
  have hflush := flush_spec_success ((get_chat_ids dir).filter B) dir
  simp only [_broadcast_promo_impl, blockedEnv, Bool.false_eq_true, if_false]
  rw [if_neg (fun hx => hp (List.isEmpty_eq_true.mp hx)),
    if_neg (fun hx => hne (List.isEmpty_eq_true.mp hx))]
  simp only [hchunks, hfold, Nat.zero_add, List.nil_append]
  simp only [hflush]
  rw [if_neg (by decide)]

theorem getD_map_lt (g : List String → List String) (l : Directory) (i : Nat)
    (h : i < l.length) : (l.map g).getD i [] = g (l.getD i []) := by
  rw [List.getD_eq_getElem?_getD, List.getD_eq_getElem?_getD, List.getElem?_map,
    List.getElem?_eq_getElem h]
  rfl

theorem getD_mem_lt (l : Directory) (i : Nat) (h : i < l.length) : l.getD i [] ∈ l := by
  rw [List.getD_eq_getElem?_getD, List.getElem?_eq_getElem h]
  exact List.getElem_mem h

theorem canon_of_mem_chats (dir : Directory) (hcanon : ∀ row ∈ dir, CanonicalRow row)
    (c : Int) (hc : c ∈ get_chat_ids dir) :
    py_int? (toString c) = some c ∧
      ∃ row ∈ dir, cellOf row = toString c ∧ rowFn row = some c := by
  rw [get_chat_ids_eq] at hc
  obtain ⟨row, hrow, hfr⟩ := List.mem_filterMap.mp hc
  have h1 := rowFn_some_canonical row (hcanon row hrow) c hfr
  exact ⟨h1.2.2.1, row, hrow, h1.2.2.2, hfr⟩

theorem updated_dir_status (L : List Int) (dir : Directory)
    (hcanon : ∀ row ∈ dir, CanonicalRow row)
    (c : Int) (hc : c ∈ get_chat_ids dir) (hcL : c ∈ L) :
    chat_status (dir.map (fun row =>
      if cellOf row ∈ L.map toString then mark row else row)) c = some "left" := by
  have hlen6 : ∀ row ∈ dir, row.length = 6 := fun row hr => (hcanon row hr).1
  obtain ⟨hpy, row, hrow, hcell, hfr⟩ := canon_of_mem_chats dir hcanon c hc
  have hgcell : ∀ r ∈ dir,
      cellOf (if cellOf r ∈ L.map toString then mark r else r) = cellOf r := by
    intro r hr
    by_cases hmm : cellOf r ∈ L.map toString
    · rw [if_pos hmm, cellOf_mark r (hlen6 r hr)]
    · rw [if_neg hmm]
  obtain ⟨i, hfi⟩ := find_row_exists c dir ⟨row, hrow, hcell⟩
  have hspec := find_row_spec c dir i hfi
  have hfind2 : find_row_by_chat_id (dir.map (fun row =>
      if cellOf row ∈ L.map toString then mark row else row)) c = some i := by
    rw [find_row_map_congr c _ dir hgcell, hfi]
  unfold chat_status
  rw [hfind2, Option.map_some']
  refine congrArg some ?_
  rw [getD_map_lt _ dir i hspec.1]
  have hrmem := getD_mem_lt dir i hspec.1
  have hcond : cellOf (dir.getD i []) ∈ L.map toString := by
    rw [hspec.2]
    exact List.mem_map.mpr ⟨c, hcL, rfl⟩
  rw [if_pos hcond, mark_status _ (hlen6 _ hrmem)]

theorem str_inj_on_chats (dir : Directory) (hcanon : ∀ row ∈ dir, CanonicalRow row)
    (c c2 : Int) (hc : c ∈ get_chat_ids dir) (hc2 : c2 ∈ get_chat_ids dir)
    (he : toString c = toString c2) : c = c2 := by
  have h1 := (canon_of_mem_chats dir hcanon c hc).1
  have h2 := (canon_of_mem_chats dir hcanon c2 hc2).1
  rw [he] at h1
  exact Option.some.inj (h1.symm.trans h2)

theorem updated_dir_chats (L : List Int) (dir : Directory)
    (hcanon : ∀ row ∈ dir, CanonicalRow row)
    (hsub : ∀ x ∈ L, x ∈ get_chat_ids dir) (c : Int) :
    c ∈ get_chat_ids (dir.map (fun row =>
      if cellOf row ∈ L.map toString then mark row else row)) ↔
      (c ∈ get_chat_ids dir ∧ c ∉ L) := by
  have hlen6 : ∀ row ∈ dir, row.length = 6 := fun row hr => (hcanon row hr).1
  rw [get_chat_ids_eq, List.filterMap_map]
  constructor
  · intro hmem
    obtain ⟨row, hrow, hfg⟩ := List.mem_filterMap.mp hmem
    by_cases hmm : cellOf row ∈ L.map toString
    · rw [show (rowFn ∘ fun row =>
          if cellOf row ∈ L.map toString then mark row else row) row =
            rowFn (mark row) from by
            simp only [Function.comp_apply, if_pos hmm],
        rowFn_mark row (hlen6 row hrow)] at hfg
      exact absurd hfg (by simp)
    · rw [show (rowFn ∘ fun row =>
          if cellOf row ∈ L.map toString then mark row else row) row =
            rowFn row from by
            simp only [Function.comp_apply, if_neg hmm]] at hfg
      have hcin : c ∈ get_chat_ids dir := by
        rw [get_chat_ids_eq]
        exact List.mem_filterMap.mpr ⟨row, hrow, hfg⟩
      refine ⟨hcin, fun hcL => ?_⟩
      have h1 := rowFn_some_canonical row (hcanon row hrow) c hfg
      refine hmm ?_
      rw [h1.2.2.2]
      exact List.mem_map.mpr ⟨c, hcL, rfl⟩
  · rintro ⟨hcin, hcL⟩
    obtain ⟨hpy, row, hrow, hcell, hfr⟩ := canon_of_mem_chats dir hcanon c hcin
    have hmm : cellOf row ∉ L.map toString := by
      intro hmem2
      obtain ⟨c2, hc2, he2⟩ := List.mem_map.mp hmem2
      rw [hcell] at he2
      have hce : c2 = c := str_inj_on_chats dir hcanon c2 c (hsub c2 hc2) hcin he2
      subst hce
      exact hcL hc2
    refine List.mem_filterMap.mpr ⟨row, hrow, ?_⟩
    show (rowFn ∘ fun row =>
        if cellOf row ∈ L.map toString then mark row else row) row = some c
    simp only [Function.comp_apply, if_neg hmm]
    exact hfr

theorem no_send_to_missing (dir2 : Directory) (c : Int) (hc : c ∉ get_chat_ids dir2)
    (lockHeld : Bool) (env2 : BroadcastEnv) (st2 : SafeSenderState) :
    Effect.sendToChat c ∉ (broadcast_promo lockHeld env2 st2 dir2).2.2.2 := by
  have himpl : ∀ (env3 : BroadcastEnv) (st3 : SafeSenderState),
      Effect.sendToChat c ∉ (_broadcast_promo_impl env3 st3 dir2).2.2.2 := by
    intro env3 st3
    obtain ⟨pr, cf, sc, uo⟩ := env3
    unfold _broadcast_promo_impl
    cases pr with
    | error e => simp
    | ok ps =>
        by_cases h1 : ps.isEmpty
        · simp [h1]
        · by_cases h2 : cf
          · simp [h1, h2]
          · by_cases h3 : (get_chat_ids dir2).isEmpty
            · simp [h1, h2, h3]
            · simp only [h1, h2, h3, Bool.false_eq_true, if_false]
              intro hmem
              simp only [List.mem_append, List.mem_cons, List.mem_map,
                List.not_mem_nil, or_false, reduceCtorEq, false_or,
                Effect.sendToChat.injEq] at hmem
              obtain ⟨a, ha, he⟩ := hmem
              subst he
              exact hc ha
  cases lockHeld
  · exact himpl env2 st2
  · simp [broadcast_promo]

/-- C6 (amended): over a canonical directory with N reachable chats of
which exactly the chats with `B c` (K of them) are permanently blocked
and the rest deliver without error, the run — for every K — reports
status `"sent"` with success count N−K and forbidden count K and zero
temporary/permanent errors; when the queued directory updates succeed,
the run's flush marks the first `min(K, 30)` queued blocked chats `left`
(30 is the run's flush cap `max_updates`), and the blocked chats beyond
the cap stay in the pending set for later flushes; `get_chat_ids` of the
updated directory is exactly the reachable chats minus the marked ones,
and no subsequent broadcast over the updated directory attempts a send
to a marked chat.  When K ≤ 30 this specializes to the claim's shape:
all K blocked chats are marked `left`, the reachable set becomes exactly
the N−K unblocked chats, and no blocked chat is ever sent to again. -/
theorem broadcast_blocked_run (B : Int → Bool) (products : List Product) (dir : Directory)
    (hp : products ≠ [])
    (hcanon : ∀ row ∈ dir, CanonicalRow row)
    (hnodup : (dir.map cellOf).Nodup)
    (hne : get_chat_ids dir ≠ []) :
    ((broadcast_promo false (blockedEnv B products) ⟨[]⟩ dir).1.status = "sent" ∧
      (broadcast_promo false (blockedEnv B products) ⟨[]⟩ dir).1.chats =
        (get_chat_ids dir).length ∧
      (broadcast_promo false (blockedEnv B products) ⟨[]⟩ dir).1.success =
        (get_chat_ids dir).length - ((get_chat_ids dir).filter B).length ∧
      (broadcast_promo false (blockedEnv B products) ⟨[]⟩ dir).1.forbidden =
        ((get_chat_ids dir).filter B).length ∧
      (broadcast_promo false (blockedEnv B products) ⟨[]⟩ dir).1.temporary_errors = 0 ∧
      (broadcast_promo false (blockedEnv B products) ⟨[]⟩ dir).1.permanent_errors = 0) ∧
    (∀ c ∈ ((get_chat_ids dir).filter B).take 30,
      chat_status (broadcast_promo false (blockedEnv B products) ⟨[]⟩ dir).2.2.1 c =
        some "left") ∧
    ((broadcast_promo false (blockedEnv B products) ⟨[]⟩ dir).2.1.pending =
      ((get_chat_ids dir).filter B).drop 30) ∧
    (∀ c : Int,
      c ∈ get_chat_ids (broadcast_promo false (blockedEnv B products) ⟨[]⟩ dir).2.2.1 ↔
        (c ∈ get_chat_ids dir ∧ c ∉ ((get_chat_ids dir).filter B).take 30)) ∧
    (∀ c ∈ ((get_chat_ids dir).filter B).take 30,
      ∀ (lockHeld : Bool) (env2 : BroadcastEnv) (st2 : SafeSenderState),
        Effect.sendToChat c ∉
          (broadcast_promo lockHeld env2 st2
            (broadcast_promo false (blockedEnv B products) ⟨[]⟩ dir).2.2.1).2.2.2) ∧
    (((get_chat_ids dir).filter B).length ≤ 30 →
      (∀ c ∈ get_chat_ids dir, B c = true →
        chat_status (broadcast_promo false (blockedEnv B products) ⟨[]⟩ dir).2.2.1 c =
          some "left") ∧
      (∀ c : Int,
        c ∈ get_chat_ids (broadcast_promo false (blockedEnv B products) ⟨[]⟩ dir).2.2.1 ↔
          (c ∈ get_chat_ids dir ∧ B c = false)) ∧
      (∀ c ∈ get_chat_ids dir, B c = true →
        ∀ (lockHeld : Bool) (env2 : BroadcastEnv) (st2 : SafeSenderState),
          Effect.sendToChat c ∉
            (broadcast_promo lockHeld env2 st2
              (broadcast_promo false (blockedEnv B products) ⟨[]⟩ dir).2.2.1).2.2.2)) := by
  have hlen6 : ∀ row ∈ dir, row.length = 6 := fun row hr => (hcanon row hr).1
  have hnd : (get_chat_ids dir).Nodup := get_chat_ids_nodup dir hcanon hnodup
  have hbp : broadcast_promo false (blockedEnv B products) ⟨[]⟩ dir =
      _broadcast_promo_impl (blockedEnv B products) ⟨[]⟩ dir := rfl
  have hrun := broadcast_impl_run B products dir hp hne hnd
  have hL : ∀ x ∈ ((get_chat_ids dir).filter B).take 30, x ∈ get_chat_ids dir :=
    fun x hx => (List.mem_filter.mp ((List.take_sublist 30 _).subset hx)).1
  have hdir2 : (broadcast_promo false (blockedEnv B products) ⟨[]⟩ dir).2.2.1 =
      dir.map (fun row =>
        if cellOf row ∈ (((get_chat_ids dir).filter B).take 30).map toString
        then mark row else row) := by
    rw [hbp, hrun]
    exact updAll_eq_map (((get_chat_ids dir).filter B).take 30) dir hlen6 hnodup
  have hpart := filter_length_partition B (get_chat_ids dir)
  have hmarked : ∀ c ∈ ((get_chat_ids dir).filter B).take 30,
      chat_status (broadcast_promo false (blockedEnv B products) ⟨[]⟩ dir).2.2.1 c =
        some "left" := by
    intro c hcL
    rw [hdir2]
    exact updated_dir_status _ dir hcanon c (hL c hcL) hcL
  have hreach : ∀ c : Int,
      c ∈ get_chat_ids (broadcast_promo false (blockedEnv B products) ⟨[]⟩ dir).2.2.1 ↔
        (c ∈ get_chat_ids dir ∧ c ∉ ((get_chat_ids dir).filter B).take 30) := by
    intro c
    rw [hdir2]
    exact updated_dir_chats _ dir hcanon hL c
  have hnosend : ∀ c ∈ ((get_chat_ids dir).filter B).take 30,
      ∀ (lockHeld : Bool) (env2 : BroadcastEnv) (st2 : SafeSenderState),
        Effect.sendToChat c ∉
          (broadcast_promo lockHeld env2 st2
            (broadcast_promo false (blockedEnv B products) ⟨[]⟩ dir).2.2.1).2.2.2 := by
    intro c hcL lockHeld env2 st2
    refine no_send_to_missing _ c ?_ lockHeld env2 st2
    intro hmem
    exact ((hreach c).mp hmem).2 hcL
  refine ⟨?_, hmarked, by rw [hbp, hrun], hreach, hnosend, fun hK => ⟨?_, ?_, ?_⟩⟩
  · rw [hbp, hrun]
    refine ⟨rfl, rfl, ?_, rfl, rfl, rfl⟩
    show ((get_chat_ids dir).filter (fun c => !B c)).length = _
    omega
  · intro c hc hBc
    refine hmarked c ?_
    rw [List.take_of_length_le hK]
    exact List.mem_filter.mpr ⟨hc, hBc⟩
  · intro c
    rw [hreach c, List.take_of_length_le hK]
    constructor
    · rintro ⟨hc, hnf⟩
      refine ⟨hc, ?_⟩
      cases hBc : B c
      · rfl
      · exact absurd (List.mem_filter.mpr ⟨hc, hBc⟩) hnf
    · rintro ⟨hc, hBf⟩
      refine ⟨hc, fun hmf => ?_⟩
      have hB2 := (List.mem_filter.mp hmf).2
      rw [hBf] at hB2
      exact Bool.noConfusion hB2
  · intro c hc hBc lockHeld env2 st2
    refine hnosend c ?_ lockHeld env2 st2
    rw [List.take_of_length_le hK]
    exact List.mem_filter.mpr ⟨hc, hBc⟩

/-- Witness for C6: three reachable chats with chat 2 blocked — the run
delivers to the other two. -/
theorem broadcast_blocked_run_witness :
    (broadcast_promo false
      (blockedEnv (fun c => c == 2) [⟨1, "p", "u", "9"⟩]) ⟨[]⟩
      [["u", "1", "", "", "", "active"], ["u", "2", "", "", "", "active"],
        ["u", "3", "", "", "", "active"]]).1.success = 2 := by
  have h := broadcast_blocked_run (fun c => c == 2) [⟨1, "p", "u", "9"⟩]
    [["u", "1", "", "", "", "active"], ["u", "2", "", "", "", "active"],
      ["u", "3", "", "", "", "active"]]
    (by decide)
    (fun row hr => by
      simp only [List.mem_cons, List.not_mem_nil, or_false] at hr
      rcases hr with rfl | rfl | rfl
      · exact ⟨by decide, 1, by decide, by decide, by decide⟩
      · exact ⟨by decide, 2, by decide, by decide, by decide⟩
      · exact ⟨by decide, 3, by decide, by decide, by decide⟩)
    (by decide)
    (by decide)
  rw [h.1.2.2.1]
  decide

set_option maxRecDepth 100000 in
/-- C6 counterexample to the claim as stated: with 31 blocked chats the
run's flush (capped at 30 updates) leaves one blocked chat unmarked — its
directory status is still `"active"` after the run, and its chat id is
still pending. -/
theorem broadcast_flush_cap_counterexample :
    (broadcast_promo false (blockedEnv (fun _ => true) [⟨1, "p", "u", "9"⟩]) ⟨[]⟩
      ((List.range 31).map (fun i => ["u", toString i, "", "", "", "active"]))).1.forbidden
        = 31 ∧
    chat_status
      (broadcast_promo false (blockedEnv (fun _ => true) [⟨1, "p", "u", "9"⟩]) ⟨[]⟩
        ((List.range 31).map (fun i => ["u", toString i, "", "", "", "active"]))).2.2.1
      30 = some "active" ∧
    chat_status
      (broadcast_promo false (blockedEnv (fun _ => true) [⟨1, "p", "u", "9"⟩]) ⟨[]⟩
        ((List.range 31).map (fun i => ["u", toString i, "", "", "", "active"]))).2.2.1
      30 ≠ some "left" ∧
    (broadcast_promo false (blockedEnv (fun _ => true) [⟨1, "p", "u", "9"⟩]) ⟨[]⟩
      ((List.range 31).map (fun i => ["u", toString i, "", "", "", "active"]))).2.1.pending
        = [30] := by
  decide

end SheetsBot
